import Mathlib

/-!
Shallow embedding of `src/filter-history.py`, a script that extracts the
history of one subdirectory of a git repository into a new standalone
repository.

External processes are modelled by an oracle `Cmd → ProcBehavior` that gives
the behavior of the process launched for each command line.  The working
clone's filesystem is modelled by the parts the script reads or mutates: the
entries directly at the clone root (including `.git`) and the entries directly
inside the target subdirectory.  Entries carry a numeric identity that
survives `git mv`, so a promoted entry can be told apart from a deleted
same-named one.  Side effects are recorded as an explicit event list: the
log line announcing a command, the creation of an external process, and a
recursive filesystem deletion (`shutil.rmtree`).
-/

/-- A command line: the ordered argument list passed to `_run_command`,
e.g. `["git", "mv", src, dst]`. -/
abbrev Cmd := List String

/-- Behavior of the external process launched for one command: it either
exits with a status code or fails to finish within the timeout. -/
inductive ProcBehavior where
  | exits (code : Int)
  | timesOut
deriving DecidableEq

/-- Exceptions that can escape `_run_command`: the script's own `_ScriptError`
raised on a non-zero exit status (line 413 of the source), or Python's
`subprocess.TimeoutExpired`, which the handler `except Exception: proc.kill();
raise` (lines 414-416) re-raises unchanged after killing the process. -/
inductive RunErr where
  | scriptError (exitCode : Int)
  | timeoutExpired
deriving DecidableEq

/-- True exactly on the `_ScriptError` (`CommandFailed`) error kind. -/
def RunErr.isScriptErr : RunErr → Bool
  | RunErr.scriptError _ => true
  | RunErr.timeoutExpired => false

/-- Observable side effects of the script: the `_logger.info` line announcing
a command line (emitted in dry-run too), the creation of an external process
(`subprocess.Popen`), and a recursive delete (`shutil.rmtree`). -/
inductive Event where
  | logCmd (c : Cmd)
  | spawn (c : Cmd)
  | rmtree (path : String)
deriving DecidableEq

/-- The message of the `_ScriptError` raised on a non-zero exit status
(line 413 of the source). -/
def scriptErrorMessage (exitCode : Int) : String :=
  "command failed with exit status " ++ toString exitCode

/-- Model of `_run_command` (lines 399-417): logs the shell command line, and
in dry-run returns immediately with no process created; otherwise spawns the
process and waits.  A non-zero exit status raises `_ScriptError` carrying the
exit code; a timeout kills the process and re-raises `TimeoutExpired`.
Returns the emitted events and the outcome. -/
def _run_command (dry_run : Bool) (beh : Cmd → ProcBehavior) (command_args : Cmd) :
    List Event × Except RunErr Unit :=
  if dry_run then
    ([Event.logCmd command_args], Except.ok ())
  else
    match beh command_args with
    | ProcBehavior.exits code =>
        if code = 0 then
          ([Event.logCmd command_args, Event.spawn command_args], Except.ok ())
        else
          ([Event.logCmd command_args, Event.spawn command_args],
            Except.error (RunErr.scriptError code))
    | ProcBehavior.timesOut =>
        ([Event.logCmd command_args, Event.spawn command_args],
          Except.error RunErr.timeoutExpired)

/-- Runs a list of command lines in order through `_run_command`, stopping at
the first failure, exactly as the straight-line Python code does. -/
def runCommandsSeq (dry_run : Bool) (beh : Cmd → ProcBehavior) :
    List Cmd → List Event × Except RunErr Unit
  | [] => ([], Except.ok ())
  | c :: rest =>
    match _run_command dry_run beh c with
    | (ev, Except.error e) => (ev, Except.error e)
    | (ev, Except.ok _) =>
      match runCommandsSeq dry_run beh rest with
      | (ev2, r2) => (ev ++ ev2, r2)

/-- The three probe commands of `_check_tools` (lines 98-113). -/
def checkToolCommands : List Cmd :=
  [["git", "--version"], ["git", "filter-repo", "--version"], ["gh", "--version"]]

deriving instance DecidableEq for Except

/-- Result of `_check_tools`: the emitted events, the error-level log
messages, and the outcome (`Except.ok` the returned boolean, or an uncaught
exception). -/
structure CheckOutcome where
  events : List Event
  errorLogs : List String
  result : Except RunErr Bool
deriving DecidableEq

/-- Model of `_check_tools` (lines 84-118): probes the three required tools in
order; a `_ScriptError` from any probe is caught, logged via
`_logger.error("Could not find tool: " + str(e))`, and turned into `False`;
any other exception (notably `TimeoutExpired`) propagates. -/
def _check_tools (dry_run : Bool) (beh : Cmd → ProcBehavior) : CheckOutcome :=
  match runCommandsSeq dry_run beh checkToolCommands with
  | (ev, Except.ok _) => ⟨ev, [], Except.ok true⟩
  | (ev, Except.error (RunErr.scriptError code)) =>
      ⟨ev, ["Could not find tool: " ++ scriptErrorMessage code], Except.ok false⟩
  | (ev, Except.error RunErr.timeoutExpired) =>
      ⟨ev, [], Except.error RunErr.timeoutExpired⟩

/-- A directory entry of the working clone.  The identity `uid` follows the
entry through `git mv`, distinguishing a promoted entry from a deleted
same-named one. -/
structure Entry where
  name : String
  uid : Nat
deriving DecidableEq

/-- The filesystem state the script reads and mutates: the entries directly at
the clone root (including `.git`), the root-level name under which the target
subdirectory nests, and the entries directly inside the target subdirectory. -/
structure CloneFs where
  root : List Entry
  targetTop : String
  target : List Entry
deriving DecidableEq

/-- `str(target_dir / name)` with POSIX separators. -/
def pathJoin (dir name : String) : String := dir ++ "/" ++ name

/-- The `git mv` command line issued throughout the script. -/
def mvCmd (src dst : String) : Cmd := ["git", "mv", src, dst]

/-- Effect on the working tree of `git mv` moving entry `f` out of the target
subdirectory to the root-level name `new_name` (run from the clone root). -/
def moveTargetEntryToRoot (fs : CloneFs) (f : Entry) (new_name : String) : CloneFs :=
  { fs with target := fs.target.erase f, root := fs.root ++ [⟨new_name, f.uid⟩] }

/-- Effect on the working tree of `git mv old_name new_name` at the clone
root: the root entries bearing `old_name` now bear `new_name`. -/
def renameRootEntry (fs : CloneFs) (old_name new_name : String) : CloneFs :=
  { fs with root := fs.root.map (fun e => if e.name = old_name then ⟨new_name, e.uid⟩ else e) }

/-- Effect of `shutil.rmtree name` run at the clone root: the root entries
bearing `name` are removed with their whole subtree; deleting the directory
the target subdirectory nests under also deletes the remaining target
entries. -/
def rmtreeFs (fs : CloneFs) (name : String) : CloneFs :=
  { root := fs.root.filter (fun e => e.name != name),
    targetTop := fs.targetTop,
    target := if fs.targetTop = name then [] else fs.target }

/-- Result of one phase-1 pass of `_change_root_directory`: the filesystem,
the emitted events, the recorded `skip_folders` collision pairs, and the
first command failure if any. -/
structure MovesResult where
  fs : CloneFs
  events : List Event
  skips : List (String × String)
  err : Option RunErr
deriving DecidableEq

/-- Phase 1 of `_change_root_directory` (lines 56-67): for each entry of the
target subdirectory, pick `new_name` (suffix `_test` when the name collides
with a snapshotted root name, recording the pair in `skip_folders`), issue
`git mv`, and apply its working-tree effect when not in dry-run.  The first
command failure propagates, abandoning the rest of the loop. -/
def flattenMoves (dry_run : Bool) (beh : Cmd → ProcBehavior) (targetDirStr : String)
    (rootNames : List String) (files : List Entry) (fs : CloneFs) : MovesResult :=
  match files with
  | [] => ⟨fs, [], [], none⟩
  | f :: rest =>
    let collide := rootNames.contains f.name
    let new_name := if collide then f.name ++ "_test" else f.name
    let r := _run_command dry_run beh (mvCmd (pathJoin targetDirStr f.name) new_name)
    match r.2 with
    | Except.error e =>
        ⟨fs, r.1, if collide then [(new_name, f.name)] else [], some e⟩
    | Except.ok _ =>
      let fs1 := if dry_run then fs else moveTargetEntryToRoot fs f new_name
      let res := flattenMoves dry_run beh targetDirStr rootNames rest fs1
      ⟨res.fs, r.1 ++ res.events,
        (if collide then [(new_name, f.name)] else []) ++ res.skips, res.err⟩

/-- Step 4 of `_change_root_directory` (lines 69-74): recursively delete every
snapshotted root-level entry except `.git`.  Note that the Python code runs
`shutil.rmtree` without consulting `dry_run`. -/
def flattenDeletes (rootNames : List String) (fs : CloneFs) : CloneFs × List Event :=
  match rootNames with
  | [] => (fs, [])
  | n :: rest =>
    if n = ".git" then flattenDeletes rest fs
    else
      let res := flattenDeletes rest (rmtreeFs fs n)
      (res.1, Event.rmtree n :: res.2)

/-- Result of a step that emits events, may mutate the clone, and may raise. -/
structure StepResult where
  fs : CloneFs
  events : List Event
  err : Option RunErr
deriving DecidableEq

/-- Phase 2 of `_change_root_directory` (lines 75-81): rename each recorded
collision pair from its temporary `_test` name back to its intended name. -/
def flattenRenames (dry_run : Bool) (beh : Cmd → ProcBehavior)
    (pairs : List (String × String)) (fs : CloneFs) : StepResult :=
  match pairs with
  | [] => ⟨fs, [], none⟩
  | (old_n, new_n) :: rest =>
    let r := _run_command dry_run beh (mvCmd old_n new_n)
    match r.2 with
    | Except.error e => ⟨fs, r.1, some e⟩
    | Except.ok _ =>
      let fs1 := if dry_run then fs else renameRootEntry fs old_n new_n
      let res := flattenRenames dry_run beh rest fs1
      ⟨res.fs, r.1 ++ res.events, res.err⟩

/-- Model of `_change_root_directory` (lines 44-81): snapshot the root-level
names and the target-subdirectory entries, then run the move phase, the
delete pass, and the collision-rename phase in that order.  (Python keeps the
root names in a `set`; names within one directory are unique, so a list
snapshot is equivalent up to the deletion order, on which nothing depends.) -/
def _change_root_directory (dry_run : Bool) (beh : Cmd → ProcBehavior)
    (targetDirStr : String) (fs : CloneFs) : StepResult :=
  let rootNames := fs.root.map Entry.name
  let moves := flattenMoves dry_run beh targetDirStr rootNames fs.target fs
  match moves.err with
  | some e => ⟨moves.fs, moves.events, some e⟩
  | none =>
    let del := flattenDeletes rootNames moves.fs
    let rens := flattenRenames dry_run beh moves.skips del.1
    ⟨rens.fs, moves.events ++ del.2 ++ rens.events, rens.err⟩

/-- Oracle under which every external command exits successfully. -/
def behOk : Cmd → ProcBehavior := fun _ => ProcBehavior.exits 0

/-- Whether `Path(p).exists()` holds for a root-level relative path `p` of the
working clone: some root entry bears that name. -/
def existsAtRoot (fs : CloneFs) (p : String) : Bool :=
  fs.root.any (fun e => e.name == p)

/-- Result of `_git_rename`: the filesystem, the emitted events, the returned
`is_rename` boolean, and the first command failure if any. -/
structure RenameResult where
  fs : CloneFs
  events : List Event
  is_rename : Bool
  err : Option RunErr
deriving DecidableEq

/-- Model of `_git_rename` (lines 235-255): for each `(src, dst)` pair in
order, skip the pair (log only) when `src` does not exist in the working
tree, otherwise issue `git mv src dst` and record that a rename happened;
a command failure propagates out of the loop. -/
def _git_rename (dry_run : Bool) (beh : Cmd → ProcBehavior)
    (names : List (String × String)) (fs : CloneFs) : RenameResult :=
  match names with
  | [] => ⟨fs, [], false, none⟩
  | (src, dst) :: rest =>
    if existsAtRoot fs src then
      let r := _run_command dry_run beh (mvCmd src dst)
      match r.2 with
      | Except.error e => ⟨fs, r.1, false, some e⟩
      | Except.ok _ =>
        let fs1 := if dry_run then fs else renameRootEntry fs src dst
        let res := _git_rename dry_run beh rest fs1
        ⟨res.fs, r.1 ++ res.events, true, res.err⟩
    else
      _git_rename dry_run beh rest fs

/-- The process-wide state touched by `_working_directory`: the current
working directory and the clone filesystem. -/
structure ProcState where
  cwd : String
  fs : CloneFs
deriving DecidableEq

/-- Model of the `_working_directory` context manager (lines 453-461): save
the previous working directory, `os.chdir(path)`, run the body, and restore
the previous directory in a `finally` block, i.e. on normal return and on a
raised failure alike.  The body returns the new state together with its
outcome (an exception is an `Except.error`). -/
def _working_directory (path : String)
    (body : ProcState → ProcState × Except RunErr Unit) (s : ProcState) :
    ProcState × Except RunErr Unit :=
  let prev_cwd := s.cwd
  let entered : ProcState := { s with cwd := path }
  let res := body entered
  ({ res.1 with cwd := prev_cwd }, res.2)

/-- The `gh repo clone` command of `_filter_history` (line 162). -/
def ghCloneCmd (src_repository clone_dir : String) : Cmd :=
  ["gh", "repo", "clone", src_repository, clone_dir]

/-- The `git filter-repo` command of `_filter_history` (line 169); the target
path is written with forward slashes. -/
def filterRepoCmd (target_dir : String) : Cmd :=
  ["git", "filter-repo", "--path", target_dir]

/-- Model of `_filter_history` (lines 154-172): clone the source repository,
then rewrite its history scoped to the target path.  The effect of the real
clone-and-filter on the clone directory is the oracle input `filteredFs`,
substituted on success of the non-dry run; a dry run leaves the filesystem
untouched. -/
def _filter_history (dry_run : Bool) (beh : Cmd → ProcBehavior)
    (src_repository target_dir clone_dir : String) (filteredFs : CloneFs)
    (fs : CloneFs) : StepResult :=
  let r := _run_command dry_run beh (ghCloneCmd src_repository clone_dir)
  match r.2 with
  | Except.error e => ⟨fs, r.1, some e⟩
  | Except.ok _ =>
    let r2 := _run_command dry_run beh (filterRepoCmd target_dir)
    match r2.2 with
    | Except.error e => ⟨fs, r.1 ++ r2.1, some e⟩
    | Except.ok _ =>
      ⟨if dry_run then fs else filteredFs, r.1 ++ r2.1, none⟩

/-- The command sequence of `_git_commit` (lines 187-217): optional local
committer name and email configuration, then stage everything, then commit. -/
def gitCommitCmds (user_name user_email : Option String) (message : String) : List Cmd :=
  (match user_name with
   | some n => [["git", "config", "--local", "user.name", n]]
   | none => []) ++
  (match user_email with
   | some e => [["git", "config", "--local", "user.email", e]]
   | none => []) ++
  [["git", "add", "."], ["git", "commit", "-m", message]]

/-- Model of `_git_commit`: runs its command sequence in order; a failure
propagates.  The working tree entries are unchanged. -/
def _git_commit (dry_run : Bool) (beh : Cmd → ProcBehavior)
    (user_name user_email : Option String) (message : String) (fs : CloneFs) :
    StepResult :=
  let r := runCommandsSeq dry_run beh (gitCommitCmds user_name user_email message)
  match r.2 with
  | Except.ok _ => ⟨fs, r.1, none⟩
  | Except.error e => ⟨fs, r.1, some e⟩

/-- The `gh repo create` command of `_create_gh_repo_and_set_upstream`
(lines 129-139). -/
def ghRepoCreateCmd (repository_name : String) (is_public : Bool) : Cmd :=
  ["gh", "repo", "create", repository_name,
    if is_public then "--public" else "--private"]

/-- Model of `_create_gh_repo_and_set_upstream` (lines 121-151): create the
hosting-service repository, then register it as a remote from within the
clone. -/
def _create_gh_repo_and_set_upstream (dry_run : Bool) (beh : Cmd → ProcBehavior)
    (repository_name remote_name : String) (is_public : Bool) (fs : CloneFs) :
    StepResult :=
  let r := runCommandsSeq dry_run beh
    [ghRepoCreateCmd repository_name is_public,
     ["git", "remote", "add", remote_name,
      "https://github.com/" ++ repository_name ++ ".git"]]
  match r.2 with
  | Except.ok _ => ⟨fs, r.1, none⟩
  | Except.error e => ⟨fs, r.1, some e⟩

/-- Model of `_git_push` (lines 220-232). -/
def _git_push (dry_run : Bool) (beh : Cmd → ProcBehavior)
    (remote_name branch_name : String) (fs : CloneFs) : StepResult :=
  let r := _run_command dry_run beh ["git", "push", remote_name, branch_name]
  match r.2 with
  | Except.ok _ => ⟨fs, r.1, none⟩
  | Except.error e => ⟨fs, r.1, some e⟩

/-- Model of `_gh_repo_archive` (lines 175-184). -/
def _gh_repo_archive (dry_run : Bool) (beh : Cmd → ProcBehavior)
    (repository_name : String) (fs : CloneFs) : StepResult :=
  let r := _run_command dry_run beh ["gh", "repo", "archive", repository_name, "-y"]
  match r.2 with
  | Except.ok _ => ⟨fs, r.1, none⟩
  | Except.error e => ⟨fs, r.1, some e⟩

/-- The run configuration built by `_parse_args` (lines 18-36). -/
structure RunConfig where
  src_repository : String
  dst_repository : String
  target_dir : String
  is_public : Bool
  is_archive : Bool
  git_user_name : Option String
  git_user_email : Option String
  clean : Bool
  default_timeout_sec : Nat
  dry_run : Bool
  verbose : Nat
deriving DecidableEq

/-- Splits a character list at `/`, accumulating the current component in
reverse (the semantics of Python's `str.split("/")`). -/
def splitOnSlashAux : List Char → List Char → List (List Char)
  | [], acc => [acc.reverse]
  | c :: cs, acc =>
    if c = '/' then acc.reverse :: splitOnSlashAux cs []
    else splitOnSlashAux cs (c :: acc)

/-- `repository_dir = Path("data/raw") / config.src_repository.split("/")[1]`
(lines 273-274); the source indexes component 1, assuming an
`owner/repository-name` identifier (an identifier without `/` would raise). -/
def repositoryDir (src_repository : String) : String :=
  "data/raw/" ++ String.mk ((splitOnSlashAux src_repository.data []).getD 1 [])

/-- The fixed rename map of `_main` (lines 275-278). -/
def rename_files : List (String × String) := [("index.md", "README.md")]

/-- Errors that can reach the top level of `_main`: the `ValueError` raised
when the tool check fails (line 285), or an exception from a command. -/
inductive PipelineErr where
  | valueError (msg : String)
  | runErr (e : RunErr)
deriving DecidableEq

/-- Result of a whole pipeline run. -/
structure PipeResult where
  fs : CloneFs
  events : List Event
  err : Option PipelineErr
deriving DecidableEq

/-- Model of `_main` (lines 258-353), the strictly sequential pipeline: tool
check, history filter, root flattening, commit, conditional rename plus
commit, repository creation and upstream registration, push, optional
archive, optional cleanup of the clone directory.  Any step's failure aborts
the remaining steps.  Oracle inputs: `beh` gives each command's behavior;
`fs0` is the content of the clone directory before the run (possibly left
over from an earlier run); `filteredFs` is the content a real clone-and-filter
produces. -/
def _main (cfg : RunConfig) (beh : Cmd → ProcBehavior) (fs0 filteredFs : CloneFs) :
    PipeResult :=
  let check := _check_tools cfg.dry_run beh
  match check.result with
  | Except.error e => ⟨fs0, check.events, some (PipelineErr.runErr e)⟩
  | Except.ok false =>
      ⟨fs0, check.events, some (PipelineErr.valueError "could not find tools.")⟩
  | Except.ok true =>
    let s1 := _filter_history cfg.dry_run beh cfg.src_repository cfg.target_dir
      (repositoryDir cfg.src_repository) filteredFs fs0
    let ev1 := check.events ++ s1.events
    match s1.err with
    | some e => ⟨s1.fs, ev1, some (PipelineErr.runErr e)⟩
    | none =>
      let s2 := _change_root_directory cfg.dry_run beh cfg.target_dir s1.fs
      let ev2 := ev1 ++ s2.events
      match s2.err with
      | some e => ⟨s2.fs, ev2, some (PipelineErr.runErr e)⟩
      | none =>
        let s3 := _git_commit cfg.dry_run beh cfg.git_user_name cfg.git_user_email
          "chore: change root directory." s2.fs
        let ev3 := ev2 ++ s3.events
        match s3.err with
        | some e => ⟨s3.fs, ev3, some (PipelineErr.runErr e)⟩
        | none =>
          let s4 := _git_rename cfg.dry_run beh rename_files s3.fs
          let ev4 := ev3 ++ s4.events
          match s4.err with
          | some e => ⟨s4.fs, ev4, some (PipelineErr.runErr e)⟩
          | none =>
            let s5 :=
              if s4.is_rename then
                _git_commit cfg.dry_run beh cfg.git_user_name cfg.git_user_email
                  "chore: change filenames." s4.fs
              else ⟨s4.fs, [], none⟩
            let ev5 := ev4 ++ s5.events
            match s5.err with
            | some e => ⟨s5.fs, ev5, some (PipelineErr.runErr e)⟩
            | none =>
              let s6 := _create_gh_repo_and_set_upstream cfg.dry_run beh
                cfg.dst_repository "upstream" cfg.is_public s5.fs
              let ev6 := ev5 ++ s6.events
              match s6.err with
              | some e => ⟨s6.fs, ev6, some (PipelineErr.runErr e)⟩
              | none =>
                let s7 := _git_push cfg.dry_run beh "upstream" "master" s6.fs
                let ev7 := ev6 ++ s7.events
                match s7.err with
                | some e => ⟨s7.fs, ev7, some (PipelineErr.runErr e)⟩
                | none =>
                  let s8 :=
                    if cfg.is_archive then
                      _gh_repo_archive cfg.dry_run beh cfg.dst_repository s7.fs
                    else ⟨s7.fs, [], none⟩
                  let ev8 := ev7 ++ s8.events
                  match s8.err with
                  | some e => ⟨s8.fs, ev8, some (PipelineErr.runErr e)⟩
                  | none =>
                    let ev9 := ev8 ++
                      (if cfg.clean then
                        [Event.rmtree (repositoryDir cfg.src_repository)]
                      else [])
                    ⟨s8.fs, ev9, none⟩

/-- The command a log event announced, if it is one. -/
def eventLoggedCmd : Event → Option Cmd
  | Event.logCmd c => some c
  | _ => none

/-- The command a spawn event executed, if it is one. -/
def eventSpawnedCmd : Event → Option Cmd
  | Event.spawn c => some c
  | _ => none

/-- The sequence of command lines logged during a run. -/
def loggedCmds (evs : List Event) : List Cmd := evs.filterMap eventLoggedCmd

/-- The sequence of command lines actually executed during a run. -/
def spawnedCmds (evs : List Event) : List Cmd := evs.filterMap eventSpawnedCmd

/-- Whether a command line is a `git mv`, i.e. a history-preserving move. -/
def cmdMovesTree (c : Cmd) : Bool := c.take 2 == ["git", "mv"]

/-- Events that mutate the working tree's entries: executing a `git mv`
process, or a recursive delete.  Log lines mutate nothing. -/
def mutatesTree : Event → Bool
  | Event.logCmd _ => false
  | Event.spawn c => cmdMovesTree c
  | Event.rmtree _ => true

/-- The clone of the C2 scenario: root `{.git, tt, b}` where `tt` is the name
the target subdirectory nests under, and the target subdirectory contains
`{a.txt, b}`; entries carry identities. -/
def flattenScenarioFs (tt : String) (g t rb a b : Nat) : CloneFs :=
  ⟨[⟨".git", g⟩, ⟨tt, t⟩, ⟨"b", rb⟩], tt, [⟨"a.txt", a⟩, ⟨"b", b⟩]⟩

/-- A dry-run configuration (claim C1). -/
def dryRunConfig : RunConfig :=
  { src_repository := "org/mono", dst_repository := "org/widget",
    target_dir := "sub", is_public := false, is_archive := false,
    git_user_name := none, git_user_email := none, clean := false,
    default_timeout_sec := 30, dry_run := true, verbose := 0 }

/-- A clone directory left on disk by an earlier run: besides `.git` and the
target subdirectory `sub` (holding `a.txt`), the root still holds `old`. -/
def staleCloneFs : CloneFs :=
  ⟨[⟨".git", 0⟩, ⟨"old", 1⟩, ⟨"sub", 2⟩], "sub", [⟨"a.txt", 3⟩]⟩

/-- The configuration of the C4 scenario, with the dry-run flag left open. -/
def traceConfig (dry : Bool) : RunConfig :=
  { src_repository := "org/mono", dst_repository := "org/widget",
    target_dir := "sub", is_public := true, is_archive := false,
    git_user_name := none, git_user_email := none, clean := false,
    default_timeout_sec := 30, dry_run := dry, verbose := 0 }

/-- The clone content of the C4 scenario: the target subdirectory `sub`
contains `index.md` (so the rename step has something to rename after a real
flattening). -/
def traceScenarioFs : CloneFs :=
  ⟨[⟨".git", 0⟩, ⟨"sub", 1⟩], "sub", [⟨"index.md", 2⟩]⟩

/-- A working tree whose root contains `index.md` (claim C7 witness). -/
def renameScenarioFs : CloneFs :=
  ⟨[⟨".git", 0⟩, ⟨"index.md", 1⟩], "sub", []⟩

/-- Oracle under which only the hosting-CLI probe `gh --version` fails. -/
def behOnlyGhFails : Cmd → ProcBehavior :=
  fun c => if c = ["gh", "--version"] then ProcBehavior.exits 1 else ProcBehavior.exits 0

/-- Oracle under which only the version-control probe `git --version` fails. -/
def behOnlyGitFails : Cmd → ProcBehavior :=
  fun c => if c = ["git", "--version"] then ProcBehavior.exits 1 else ProcBehavior.exits 0

/-- Oracle under which exactly the history-rewrite command over the path
`sub` fails, with exit status 1 (claim C8 witness). -/
def behFilterFails : Cmd → ProcBehavior :=
  fun c => if c = filterRepoCmd "sub" then ProcBehavior.exits 1 else ProcBehavior.exits 0

/-- A real-run (non-dry) configuration over the target directory `sub`
(claim C8 witness). -/
def filterFailConfig : RunConfig :=
  { src_repository := "org/mono", dst_repository := "org/widget",
    target_dir := "sub", is_public := false, is_archive := false,
    git_user_name := none, git_user_email := none, clean := false,
    default_timeout_sec := 30, dry_run := false, verbose := 0 }

/-- An event that belongs to phase 1 of Root Flattening: the announcement or
execution of a `git mv` whose source is an entry of the target subdirectory. -/
def isMoveEventFrom (targetDirStr : String) (files : List Entry) (e : Event) : Prop :=
  ∃ f ∈ files, ∃ nn, e = Event.logCmd (mvCmd (pathJoin targetDirStr f.name) nn)
    ∨ e = Event.spawn (mvCmd (pathJoin targetDirStr f.name) nn)

/-- An event that belongs to phase 2 of Root Flattening: the announcement or
execution of a `git mv` from a temporary `_test` name to its final name. -/
def isCollisionRenameEvent (e : Event) : Prop :=
  ∃ n, e = Event.logCmd (mvCmd (n ++ "_test") n)
    ∨ e = Event.spawn (mvCmd (n ++ "_test") n)

theorem run_command_events_shape (dry_run : Bool) (beh : Cmd → ProcBehavior) (c : Cmd) :
    ∀ e ∈ (_run_command dry_run beh c).1, e = Event.logCmd c ∨ e = Event.spawn c := by
  intro e he
  cases dry_run with
  | true =>
    simp [_run_command] at he
    simp [he]
  | false =>
    cases hb : beh c with
    | exits code =>
      by_cases hc : code = 0 <;> simp [_run_command, hb, hc] at he <;>
        rcases he with h | h <;> simp [h]
    | timesOut =>
      simp [_run_command, hb] at he
      rcases he with h | h <;> simp [h]

theorem run_command_ok_iff (beh : Cmd → ProcBehavior) (c : Cmd) :
    (_run_command false beh c).2 = Except.ok () ↔ beh c = ProcBehavior.exits 0 := by
  cases hb : beh c with
  | exits code => by_cases hc : code = 0 <;> simp [_run_command, hb, hc]
  | timesOut => simp [_run_command, hb]

theorem run_command_dry (beh : Cmd → ProcBehavior) (c : Cmd) :
    _run_command true beh c = ([Event.logCmd c], Except.ok ()) := rfl

theorem runCommandsSeq_ok_iff (beh : Cmd → ProcBehavior) :
    ∀ cs : List Cmd, (runCommandsSeq false beh cs).2 = Except.ok () ↔
      ∀ c ∈ cs, beh c = ProcBehavior.exits 0 := by
  intro cs
  induction cs with
  | nil => simp [runCommandsSeq]
  | cons c rest ih =>
    cases hb : beh c with
    | exits code =>
      by_cases hc : code = 0
      · subst hc
        simp [runCommandsSeq, _run_command, hb, ih]
      · simp [runCommandsSeq, _run_command, hb, hc]
    | timesOut =>
      simp [runCommandsSeq, _run_command, hb]

theorem runCommandsSeq_events_shape (dry_run : Bool) (beh : Cmd → ProcBehavior) :
    ∀ cs : List Cmd, ∀ e ∈ (runCommandsSeq dry_run beh cs).1,
      ∃ c ∈ cs, e = Event.logCmd c ∨ e = Event.spawn c := by
  intro cs
  induction cs with
  | nil => simp [runCommandsSeq]
  | cons c rest ih =>
    intro e he
    rcases hr : _run_command dry_run beh c with ⟨ev, r⟩
    cases r with
    | error err =>
      rw [runCommandsSeq, hr] at he
      have := run_command_events_shape dry_run beh c e (by rw [hr]; exact he)
      exact ⟨c, by simp, this⟩
    | ok u =>
      rcases hr2 : runCommandsSeq dry_run beh rest with ⟨ev2, r2⟩
      rw [runCommandsSeq, hr, hr2] at he
      rcases List.mem_append.mp he with h | h
      · have := run_command_events_shape dry_run beh c e (by rw [hr]; exact h)
        exact ⟨c, by simp, this⟩
      · rcases ih e (by rw [hr2]; exact h) with ⟨c', hc', hs⟩
        exact ⟨c', by simp [hc'], hs⟩

/-- C3 counterexample: when the process of a non-dry-run command exceeds its
timeout, `_run_command` does not raise the single `_ScriptError`
(`CommandFailed`) kind: the distinct `TimeoutExpired` exception reaches the
caller, so the two failure modes do not share one error kind. -/
theorem c3_timeout_not_script_error :
    (_run_command false (fun _ => ProcBehavior.timesOut) ["git", "--version"]).2
      = Except.error RunErr.timeoutExpired
    ∧ RunErr.isScriptErr RunErr.timeoutExpired = false :=
  ⟨rfl, rfl⟩

/-- C3 (amended): for a non-dry-run invocation, a non-zero exit status raises
`_ScriptError` carrying the exit code, while a timeout kills the process and
propagates the distinct `TimeoutExpired` exception to the caller. -/
theorem c3_run_command_failure_modes (beh : Cmd → ProcBehavior) (c : Cmd)
    (n : Int) (hn : n ≠ 0) :
    (beh c = ProcBehavior.exits n →
      (_run_command false beh c).2 = Except.error (RunErr.scriptError n))
    ∧ (beh c = ProcBehavior.timesOut →
      (_run_command false beh c).2 = Except.error RunErr.timeoutExpired) := by
  constructor
  · intro h
    simp [_run_command, h, hn]
  · intro h
    simp [_run_command, h]

/-- Witness for `c3_run_command_failure_modes` at a concrete failing exit. -/
theorem c3_run_command_failure_modes_witness :
    (1 : Int) ≠ 0 ∧
      (_run_command false (fun _ => ProcBehavior.exits 1) ["git", "--version"]).2
        = Except.error (RunErr.scriptError 1) :=
  ⟨by decide,
    (c3_run_command_failure_modes (fun _ => ProcBehavior.exits 1)
      ["git", "--version"] 1 (by decide)).1 rfl⟩

/-- C9: the `_working_directory` context manager restores the saved working
directory on every exit path of its body — the resulting state's `cwd` equals
the entry `cwd` whatever the body did to it — while the body's outcome
(normal return or raised failure) passes through unchanged. -/
theorem c9_working_directory_restores (path : String)
    (body : ProcState → ProcState × Except RunErr Unit) (s : ProcState) :
    ((_working_directory path body s).1).cwd = s.cwd
    ∧ (_working_directory path body s).2 = (body { s with cwd := path }).2 :=
  ⟨rfl, rfl⟩

/-- C10: with dry-run enabled, the Tool Availability Check returns `True`
whatever the installed tools would do — `_run_command` returns before any
process is created, so no probe can raise — and it only logs the three probe
commands, spawning nothing; a missing tool is undetectable in dry-run. -/
theorem c10_dry_run_check_tools_true (beh : Cmd → ProcBehavior) :
    (_check_tools true beh).result = Except.ok true
    ∧ (_check_tools true beh).events
        = [Event.logCmd ["git", "--version"],
           Event.logCmd ["git", "filter-repo", "--version"],
           Event.logCmd ["gh", "--version"]]
    ∧ spawnedCmds (_check_tools true beh).events = [] :=
  ⟨rfl, rfl, rfl⟩

/-- C5 counterexample: the error logged when a tool probe fails does not name
the offending tool.  When only `gh --version` fails and when only
`git --version` fails (both with exit status 1), the logged error message is
the very same string, carrying the exit status but no tool name. -/
theorem c5_error_log_does_not_name_tool :
    (_check_tools false behOnlyGhFails).errorLogs
      = ["Could not find tool: command failed with exit status 1"]
    ∧ (_check_tools false behOnlyGitFails).errorLogs
      = ["Could not find tool: command failed with exit status 1"]
    ∧ (_check_tools false behOnlyGhFails).result = Except.ok false
    ∧ (_check_tools false behOnlyGitFails).result = Except.ok false := by
  refine ⟨?_, ?_, ?_, ?_⟩ <;> rfl

/-- C5 (amended): `_check_tools` returns `True` iff all three tool probes
succeed; an individual `_ScriptError` (`CommandFailed`) is caught rather than
propagated — the result is never a propagated `_ScriptError` — and is
converted into a `False` overall result with an error logged (whose message,
per the counterexample, does not name the offending tool). -/
theorem c5_check_tools_behavior (beh : Cmd → ProcBehavior) :
    ((_check_tools false beh).result = Except.ok true ↔
        ∀ c ∈ checkToolCommands, beh c = ProcBehavior.exits 0)
    ∧ (∀ code : Int,
        (_check_tools false beh).result ≠ Except.error (RunErr.scriptError code))
    ∧ ((_check_tools false beh).result = Except.ok false →
        (_check_tools false beh).errorLogs ≠ []) := by
  rcases hr : runCommandsSeq false beh checkToolCommands with ⟨ev, r⟩
  have hiff := runCommandsSeq_ok_iff beh checkToolCommands
  rw [hr] at hiff
  cases r with
  | ok u =>
    cases u
    refine ⟨?_, ?_, ?_⟩
    · simp only [_check_tools, hr]
      exact iff_of_true (by trivial) (hiff.mp rfl)
    · intro code
      simp [_check_tools, hr]
    · simp [_check_tools, hr]
  | error err =>
    cases err with
    | scriptError code =>
      refine ⟨?_, ?_, ?_⟩
      · simp only [_check_tools, hr]
        simp only [iff_iff_implies_and_implies]
        constructor
        · intro h
          cases h
        · intro h
          exact absurd (hiff.mpr h) (by simp)
      · intro code2
        simp [_check_tools, hr]
      · intro _
        simp [_check_tools, hr]
    | timeoutExpired =>
      refine ⟨?_, ?_, ?_⟩
      · simp only [_check_tools, hr]
        simp only [iff_iff_implies_and_implies]
        constructor
        · intro h
          cases h
        · intro h
          exact absurd (hiff.mpr h) (by simp)
      · intro code
        simp [_check_tools, hr]
      · simp [_check_tools, hr]
  
/-- Witness for `c5_check_tools_behavior`: with every probe succeeding, the
check returns `True`. -/
theorem c5_check_tools_behavior_witness :
    (_check_tools false behOk).result = Except.ok true :=
  (c5_check_tools_behavior behOk).1.mpr (fun _ _ => rfl)

theorem run_command_all_ok (beh : Cmd → ProcBehavior)
    (hsucc : ∀ c, beh c = ProcBehavior.exits 0) (dry_run : Bool) (c : Cmd) :
    (_run_command dry_run beh c).2 = Except.ok () := by
  cases dry_run with
  | true => rfl
  | false => exact (run_command_ok_iff beh c).mpr (hsucc c)

theorem git_rename_all_absent (dry_run : Bool) (beh : Cmd → ProcBehavior) :
    ∀ (names : List (String × String)) (fs : CloneFs),
      (∀ p ∈ names, existsAtRoot fs p.1 = false) →
      _git_rename dry_run beh names fs = ⟨fs, [], false, none⟩ := by
  intro names
  induction names with
  | nil =>
    intro fs _
    rfl
  | cons p rest ih =>
    intro fs habs
    rcases p with ⟨src, dst⟩
    have hsrc : existsAtRoot fs src = false := habs (src, dst) (by simp)
    have hstep : _git_rename dry_run beh ((src, dst) :: rest) fs
        = _git_rename dry_run beh rest fs := by
      simp [_git_rename, hsrc]
    rw [hstep]
    exact ih fs (fun q hq => habs q (by simp [hq]))

theorem git_rename_all_ok (dry_run : Bool) (beh : Cmd → ProcBehavior)
    (hsucc : ∀ c, beh c = ProcBehavior.exits 0) :
    ∀ (names : List (String × String)) (fs : CloneFs),
      (_git_rename dry_run beh names fs).err = none
      ∧ ((_git_rename dry_run beh names fs).is_rename = true ↔
          ∃ p ∈ names, existsAtRoot fs p.1 = true) := by
  intro names
  induction names with
  | nil =>
    intro fs
    simp [_git_rename]
  | cons p rest ih =>
    intro fs
    rcases p with ⟨src, dst⟩
    have hok := run_command_all_ok beh hsucc dry_run (mvCmd src dst)
    by_cases hsrc : existsAtRoot fs src = true
    · constructor
      · simp only [_git_rename, hsrc, if_true, hok]
        exact (ih _).1
      · simp only [_git_rename, hsrc, if_true, hok]
        exact iff_of_true (by trivial) ⟨(src, dst), by simp, hsrc⟩
    · have hsrc' : existsAtRoot fs src = false := by
        simpa using hsrc
      have hstep : _git_rename dry_run beh ((src, dst) :: rest) fs
          = _git_rename dry_run beh rest fs := by
        simp [_git_rename, hsrc']
      rw [hstep]
      refine ⟨(ih fs).1, ?_⟩
      rw [(ih fs).2]
      constructor
      · rintro ⟨q, hq, hqe⟩
        exact ⟨q, by simp [hq], hqe⟩
      · rintro ⟨q, hq, hqe⟩
        rcases List.mem_cons.mp hq with h | h
        · subst h
          rw [hsrc'] at hqe
          cases hqe
        · exact ⟨q, h, hqe⟩

/-- C7: the Rename Step never raises when an original path is absent — with
every source path missing it is a pure no-op returning `False` — and, when
the issued commands succeed, it returns `True` exactly when at least one
pair's source path exists in the working tree at its turn, i.e. exactly when
at least one rename was carried out (`False` for an empty map or when no
source path exists). -/
theorem c7_git_rename_contract (dry_run : Bool) (beh : Cmd → ProcBehavior)
    (names : List (String × String)) (fs : CloneFs) :
    ((∀ p ∈ names, existsAtRoot fs p.1 = false) →
        _git_rename dry_run beh names fs = ⟨fs, [], false, none⟩)
    ∧ ((∀ c, beh c = ProcBehavior.exits 0) →
        (_git_rename dry_run beh names fs).err = none
        ∧ ((_git_rename dry_run beh names fs).is_rename = true ↔
            ∃ p ∈ names, existsAtRoot fs p.1 = true)) :=
  ⟨git_rename_all_absent dry_run beh names fs,
    fun hs => git_rename_all_ok dry_run beh hs names fs⟩

/-- Witness for `c7_git_rename_contract`: on a tree whose root holds
`index.md`, the rename map `{index.md → README.md}` is applied without error
and the step reports `True`; on the same map with an empty-rooted tree the
step is a no-op returning `False`. -/
theorem c7_git_rename_contract_witness :
    (_git_rename false behOk rename_files renameScenarioFs).err = none
    ∧ (_git_rename false behOk rename_files renameScenarioFs).is_rename = true
    ∧ _git_rename false behOk rename_files ⟨[], "sub", []⟩
        = ⟨⟨[], "sub", []⟩, [], false, none⟩ := by
  have h := (c7_git_rename_contract false behOk rename_files renameScenarioFs).2
    (fun _ => rfl)
  refine ⟨h.1, h.2.mpr ⟨("index.md", "README.md"), by decide, by decide⟩, ?_⟩
  exact (c7_git_rename_contract false behOk rename_files ⟨[], "sub", []⟩).1
    (by decide)

/-- C2: for every clone whose target subdirectory holds `{a.txt, b}` and whose
root already holds an entry named `b` (besides `.git` and the directory the
target nests under, whose name is not one of the names already in play),
running Root Flattening once, not in dry-run, yields a root holding exactly
`.git`, `a.txt` and the promoted `b` (the entry that lived in the target
subdirectory), with no `b_test` left behind and the original root-level `b`
gone. -/
theorem c2_root_flattening (tt : String) (g t rb a b : Nat)
    (h1 : tt ≠ "a.txt") (h2 : tt ≠ "b") (h3 : tt ≠ ".git") (h4 : tt ≠ "b_test")
    (h5 : rb ≠ b) :
    (_change_root_directory false behOk tt (flattenScenarioFs tt g t rb a b)).err = none
    ∧ (_change_root_directory false behOk tt (flattenScenarioFs tt g t rb a b)).fs
        = ⟨[⟨".git", g⟩, ⟨"a.txt", a⟩, ⟨"b", b⟩], tt, []⟩
    ∧ (∀ e ∈ (_change_root_directory false behOk tt
          (flattenScenarioFs tt g t rb a b)).fs.root, e.name ≠ "b_test")
    ∧ Entry.mk "b" rb ∉ (_change_root_directory false behOk tt
          (flattenScenarioFs tt g t rb a b)).fs.root := by
  have happ : ("b" : String) ++ "_test" = "b_test" := rfl
  have e1 : (("a.txt" : String) == tt) = false := by
    simp [Ne.symm h1]
  have e2 : (("b" : String) == tt) = false := by
    simp [Ne.symm h2]
  have e3 : ((".git" : String) == tt) = false := by
    simp [Ne.symm h3]
  have e4 : (("b_test" : String) == tt) = false := by
    simp [Ne.symm h4]
  have f1 : (tt == "a.txt") = false := by
    simp [h1]
  have f2 : (tt == "b") = false := by
    simp [h2]
  have f3 : (tt == ".git") = false := by
    simp [h3]
  have f4 : (tt == "b_test") = false := by
    simp [h4]
  have key : _change_root_directory false behOk tt (flattenScenarioFs tt g t rb a b)
      = ⟨⟨[⟨".git", g⟩, ⟨"a.txt", a⟩, ⟨"b", b⟩], tt, []⟩,
          [Event.logCmd (mvCmd (pathJoin tt "a.txt") "a.txt"),
           Event.spawn (mvCmd (pathJoin tt "a.txt") "a.txt"),
           Event.logCmd (mvCmd (pathJoin tt "b") "b_test"),
           Event.spawn (mvCmd (pathJoin tt "b") "b_test"),
           Event.rmtree tt, Event.rmtree "b",
           Event.logCmd (mvCmd "b_test" "b"),
           Event.spawn (mvCmd "b_test" "b")], none⟩ := by
    simp [_change_root_directory, flattenMoves, flattenRenames, flattenDeletes,
      _run_command, behOk, flattenScenarioFs, moveTargetEntryToRoot,
      renameRootEntry, rmtreeFs, List.contains, List.elem, happ,
      e1, e2, e3, e4, f1, f2, f3, f4, h1, h2, h3, h4]
    simp [List.filter_cons, e2, e3, e4, f2, f3, f4,
      Ne.symm h1, Ne.symm h2, Ne.symm h3, Ne.symm h4]
  rw [key]
  refine ⟨rfl, rfl, ?_, ?_⟩
  · intro e he
    simp at he
    rcases he with h | h | h <;> simp [h]
  · simp [h5]

/-- Witness for `c2_root_flattening` with the target subdirectory named
`sub` and concrete distinct entry identities. -/
theorem c2_root_flattening_witness :
    (_change_root_directory false behOk "sub" (flattenScenarioFs "sub" 0 1 2 3 4)).err = none
    ∧ (_change_root_directory false behOk "sub" (flattenScenarioFs "sub" 0 1 2 3 4)).fs
        = ⟨[⟨".git", 0⟩, ⟨"a.txt", 3⟩, ⟨"b", 4⟩], "sub", []⟩
    ∧ (∀ e ∈ (_change_root_directory false behOk "sub"
          (flattenScenarioFs "sub" 0 1 2 3 4)).fs.root, e.name ≠ "b_test")
    ∧ Entry.mk "b" 2 ∉ (_change_root_directory false behOk "sub"
          (flattenScenarioFs "sub" 0 1 2 3 4)).fs.root :=
  c2_root_flattening "sub" 0 1 2 3 4 (by decide) (by decide) (by decide)
    (by decide) (by decide)

theorem flattenDeletes_events (rootNames : List String) :
    ∀ fs : CloneFs, (flattenDeletes rootNames fs).2
      = (rootNames.filter (fun n => n != ".git")).map Event.rmtree := by
  induction rootNames with
  | nil =>
    intro fs
    simp [flattenDeletes]
  | cons n rest ih =>
    intro fs
    by_cases h : n = ".git"
    · subst h
      simp [flattenDeletes, ih, List.filter_cons]
    · simp [flattenDeletes, h, ih, List.filter_cons]

theorem flattenMoves_events_shape (dry_run : Bool) (beh : Cmd → ProcBehavior)
    (targetDirStr : String) (rootNames : List String) :
    ∀ (files : List Entry) (fs : CloneFs),
      ∀ e ∈ (flattenMoves dry_run beh targetDirStr rootNames files fs).events,
        isMoveEventFrom targetDirStr files e := by
  intro files
  induction files with
  | nil =>
    intro fs e he
    simp [flattenMoves] at he
  | cons f rest ih =>
    intro fs e he
    simp only [flattenMoves] at he
    rcases hr : (_run_command dry_run beh (mvCmd (pathJoin targetDirStr f.name)
        (if rootNames.contains f.name then f.name ++ "_test" else f.name))).2
      with e0 | u
    · rw [hr] at he
      simp only [] at he
      have hm := run_command_events_shape dry_run beh
        (mvCmd (pathJoin targetDirStr f.name)
          (if rootNames.contains f.name then f.name ++ "_test" else f.name)) e
      rcases hm (by exact he) with h | h
      · exact ⟨f, by simp, _, Or.inl h⟩
      · exact ⟨f, by simp, _, Or.inr h⟩
    · rw [hr] at he
      simp only [] at he
      rcases List.mem_append.mp he with h | h
      · have hm := run_command_events_shape dry_run beh
          (mvCmd (pathJoin targetDirStr f.name)
            (if rootNames.contains f.name then f.name ++ "_test" else f.name)) e
        rcases hm (by exact h) with h2 | h2
        · exact ⟨f, by simp, _, Or.inl h2⟩
        · exact ⟨f, by simp, _, Or.inr h2⟩
      · rcases ih _ e h with ⟨f2, hf2, nn, hs⟩
        exact ⟨f2, by simp [hf2], nn, hs⟩

theorem flattenMoves_skips_shape (dry_run : Bool) (beh : Cmd → ProcBehavior)
    (targetDirStr : String) (rootNames : List String) :
    ∀ (files : List Entry) (fs : CloneFs),
      ∀ p ∈ (flattenMoves dry_run beh targetDirStr rootNames files fs).skips,
        p.1 = p.2 ++ "_test" := by
  intro files
  induction files with
  | nil =>
    intro fs p hp
    simp [flattenMoves] at hp
  | cons f rest ih =>
    intro fs p hp
    simp only [flattenMoves] at hp
    rcases hr : (_run_command dry_run beh (mvCmd (pathJoin targetDirStr f.name)
        (if rootNames.contains f.name then f.name ++ "_test" else f.name))).2
      with e0 | u
    · rw [hr] at hp
      simp only [] at hp
      by_cases hc : f.name ∈ rootNames
      · simp [hc] at hp
        simp [hp]
      · simp [hc] at hp
    · rw [hr] at hp
      simp only [] at hp
      by_cases hc : f.name ∈ rootNames
      · simp [hc] at hp
        rcases hp with h | h
        · simp [h]
        · exact ih _ p h
      · simp [hc] at hp
        exact ih _ p hp

theorem flattenRenames_events_shape (dry_run : Bool) (beh : Cmd → ProcBehavior) :
    ∀ (pairs : List (String × String)) (fs : CloneFs),
      ∀ e ∈ (flattenRenames dry_run beh pairs fs).events,
        ∃ p ∈ pairs, e = Event.logCmd (mvCmd p.1 p.2) ∨ e = Event.spawn (mvCmd p.1 p.2) := by
  intro pairs
  induction pairs with
  | nil =>
    intro fs e he
    simp [flattenRenames] at he
  | cons p rest ih =>
    intro fs e he
    rcases p with ⟨old_n, new_n⟩
    simp only [flattenRenames] at he
    rcases hr : (_run_command dry_run beh (mvCmd old_n new_n)).2 with e0 | u
    · rw [hr] at he
      simp only [] at he
      rcases run_command_events_shape dry_run beh (mvCmd old_n new_n) e (by exact he)
        with h | h
      · exact ⟨(old_n, new_n), by simp, Or.inl h⟩
      · exact ⟨(old_n, new_n), by simp, Or.inr h⟩
    · rw [hr] at he
      simp only [] at he
      rcases List.mem_append.mp he with h | h
      · rcases run_command_events_shape dry_run beh (mvCmd old_n new_n) e (by exact h)
          with h2 | h2
        · exact ⟨(old_n, new_n), by simp, Or.inl h2⟩
        · exact ⟨(old_n, new_n), by simp, Or.inr h2⟩
      · rcases ih _ e h with ⟨q, hq, hs⟩
        exact ⟨q, by simp [hq], hs⟩

/-- C6: whenever Root Flattening completes, its event trace decomposes into a
prefix of phase-1 moves of target entries, then exactly one recursive delete
for each snapshotted root name except `.git` (only `.git` is skipped), then a
suffix of phase-2 collision renames from temporary `_test` names to their
final names — deletions happen only after all moves were issued, phase-2
renames only after the deletions. -/
theorem c6_flatten_phase_order (dry_run : Bool) (beh : Cmd → ProcBehavior)
    (targetDirStr : String) (fs : CloneFs)
    (h : (_change_root_directory dry_run beh targetDirStr fs).err = none) :
    ∃ pre post,
      (_change_root_directory dry_run beh targetDirStr fs).events
        = pre ++ (((fs.root.map Entry.name).filter (fun n => n != ".git")).map
            Event.rmtree) ++ post
      ∧ (∀ e ∈ pre, isMoveEventFrom targetDirStr fs.target e)
      ∧ (∀ e ∈ post, isCollisionRenameEvent e) := by
  rcases hm : (flattenMoves dry_run beh targetDirStr (fs.root.map Entry.name)
      fs.target fs).err with _ | e0
  · refine ⟨(flattenMoves dry_run beh targetDirStr (fs.root.map Entry.name)
        fs.target fs).events,
      (flattenRenames dry_run beh
        (flattenMoves dry_run beh targetDirStr (fs.root.map Entry.name)
          fs.target fs).skips
        (flattenDeletes (fs.root.map Entry.name)
          (flattenMoves dry_run beh targetDirStr (fs.root.map Entry.name)
            fs.target fs).fs).1).events, ?_, ?_, ?_⟩
    · simp only [_change_root_directory, hm]
      rw [flattenDeletes_events]
    · exact fun e he => flattenMoves_events_shape dry_run beh targetDirStr
        (fs.root.map Entry.name) fs.target fs e he
    · intro e he
      rcases flattenRenames_events_shape dry_run beh _ _ e he with ⟨q, hq, hs⟩
      have := flattenMoves_skips_shape dry_run beh targetDirStr
        (fs.root.map Entry.name) fs.target fs q hq
      refine ⟨q.2, ?_⟩
      rw [← this]
      exact hs
  · exfalso
    simp only [_change_root_directory, hm] at h
    cases h

/-- Witness for `c6_flatten_phase_order` on the collision scenario clone. -/
theorem c6_flatten_phase_order_witness :
    (_change_root_directory false behOk "sub"
        (flattenScenarioFs "sub" 0 1 2 3 4)).err = none
    ∧ ∃ pre post,
        (_change_root_directory false behOk "sub"
            (flattenScenarioFs "sub" 0 1 2 3 4)).events
          = pre ++ ((((flattenScenarioFs "sub" 0 1 2 3 4).root.map Entry.name).filter
              (fun n => n != ".git")).map Event.rmtree) ++ post
        ∧ (∀ e ∈ pre, isMoveEventFrom "sub" (flattenScenarioFs "sub" 0 1 2 3 4).target e)
        ∧ (∀ e ∈ post, isCollisionRenameEvent e) :=
  ⟨by decide,
    c6_flatten_phase_order false behOk "sub" (flattenScenarioFs "sub" 0 1 2 3 4)
      (by decide)⟩

/-- C1 (the code at the failing input): in a dry-run over a pre-existing clone
directory, the pipeline spawns no external process — that half of the claim
holds — yet Root Flattening still executes `shutil.rmtree` on the root-level
entries (`old` among them): line 74 of the source runs without consulting
`dry_run`, so the filesystem under the working clone is mutated and the run
even completes without error. -/
theorem c1_dry_run_still_deletes :
    Event.rmtree "old" ∈ (_main dryRunConfig behOk staleCloneFs staleCloneFs).events
    ∧ (_main dryRunConfig behOk staleCloneFs staleCloneFs).fs ≠ staleCloneFs
    ∧ spawnedCmds (_main dryRunConfig behOk staleCloneFs staleCloneFs).events = []
    ∧ (_main dryRunConfig behOk staleCloneFs staleCloneFs).err = none := by
  decide

/-- C4 counterexample: with the same configuration (but for the dry-run flag)
and the same initial clone content, the command sequence a dry run logs is not
the command sequence a real run executes: after a real flattening `index.md`
exists at the root, so the real run performs `git mv index.md README.md` plus
a second commit, while the dry run — whose moves never happened — skips the
rename and its commit. -/
theorem c4_dry_and_real_traces_differ :
    loggedCmds (_main (traceConfig true) behOk traceScenarioFs traceScenarioFs).events
      ≠ spawnedCmds
          (_main (traceConfig false) behOk traceScenarioFs traceScenarioFs).events := by
  decide

theorem run_command_real_ok (beh : Cmd → ProcBehavior)
    (hsucc : ∀ c, beh c = ProcBehavior.exits 0) (c : Cmd) :
    _run_command false beh c = ([Event.logCmd c, Event.spawn c], Except.ok ()) := by
  simp [_run_command, hsucc]

theorem filterMap_const_none {α β : Type} (l : List α) :
    l.filterMap (fun _ => (none : Option β)) = [] := by
  induction l with
  | nil => rfl
  | cons x xs ih => simp [List.filterMap_cons, ih]

theorem flattenDeletes_no_cmds (rootNames : List String) (fs : CloneFs) :
    loggedCmds (flattenDeletes rootNames fs).2 = []
    ∧ spawnedCmds (flattenDeletes rootNames fs).2 = [] := by
  rw [flattenDeletes_events]
  constructor
  · rw [loggedCmds, List.filterMap_map]
    exact filterMap_const_none _
  · rw [spawnedCmds, List.filterMap_map]
    exact filterMap_const_none _

theorem loggedCmds_nil : loggedCmds [] = [] := rfl

theorem loggedCmds_cons_log (c : Cmd) (l : List Event) :
    loggedCmds (Event.logCmd c :: l) = c :: loggedCmds l := rfl

theorem loggedCmds_cons_spawn (c : Cmd) (l : List Event) :
    loggedCmds (Event.spawn c :: l) = loggedCmds l := rfl

theorem loggedCmds_cons_rmtree (p : String) (l : List Event) :
    loggedCmds (Event.rmtree p :: l) = loggedCmds l := rfl

theorem loggedCmds_append (l1 l2 : List Event) :
    loggedCmds (l1 ++ l2) = loggedCmds l1 ++ loggedCmds l2 :=
  List.filterMap_append l1 l2 eventLoggedCmd

theorem spawnedCmds_nil : spawnedCmds [] = [] := rfl

theorem spawnedCmds_cons_log (c : Cmd) (l : List Event) :
    spawnedCmds (Event.logCmd c :: l) = spawnedCmds l := rfl

theorem spawnedCmds_cons_spawn (c : Cmd) (l : List Event) :
    spawnedCmds (Event.spawn c :: l) = c :: spawnedCmds l := rfl

theorem spawnedCmds_cons_rmtree (p : String) (l : List Event) :
    spawnedCmds (Event.rmtree p :: l) = spawnedCmds l := rfl

theorem spawnedCmds_append (l1 l2 : List Event) :
    spawnedCmds (l1 ++ l2) = spawnedCmds l1 ++ spawnedCmds l2 :=
  List.filterMap_append l1 l2 eventSpawnedCmd

theorem flattenMoves_dry_real (beh : Cmd → ProcBehavior)
    (hsucc : ∀ c, beh c = ProcBehavior.exits 0) (targetDirStr : String)
    (rootNames : List String) :
    ∀ (files : List Entry) (fs fs' : CloneFs),
      loggedCmds (flattenMoves true beh targetDirStr rootNames files fs).events
        = spawnedCmds (flattenMoves false beh targetDirStr rootNames files fs').events
      ∧ (flattenMoves true beh targetDirStr rootNames files fs).skips
        = (flattenMoves false beh targetDirStr rootNames files fs').skips
      ∧ (flattenMoves true beh targetDirStr rootNames files fs).err = none
      ∧ (flattenMoves false beh targetDirStr rootNames files fs').err = none := by
  intro files
  induction files with
  | nil =>
    intro fs fs'
    simp [flattenMoves, loggedCmds, spawnedCmds]
  | cons f rest ih =>
    intro fs fs'
    have h1 := ih fs (moveTargetEntryToRoot fs' f
      (if rootNames.contains f.name then f.name ++ "_test" else f.name))
    simp only [List.contains, List.elem_eq_mem, decide_eq_true_eq] at h1
    simp [flattenMoves, run_command_dry, run_command_real_ok beh hsucc,
      loggedCmds_append, loggedCmds_cons_log, loggedCmds_cons_spawn,
      loggedCmds_nil, spawnedCmds_append, spawnedCmds_cons_log,
      spawnedCmds_cons_spawn, spawnedCmds_nil,
      h1.1, h1.2.1, h1.2.2.1, h1.2.2.2]

theorem flattenRenames_dry_real (beh : Cmd → ProcBehavior)
    (hsucc : ∀ c, beh c = ProcBehavior.exits 0) :
    ∀ (pairs : List (String × String)) (fs fs' : CloneFs),
      loggedCmds (flattenRenames true beh pairs fs).events
        = spawnedCmds (flattenRenames false beh pairs fs').events
      ∧ (flattenRenames true beh pairs fs).err = none
      ∧ (flattenRenames false beh pairs fs').err = none := by
  intro pairs
  induction pairs with
  | nil =>
    intro fs fs'
    simp [flattenRenames, loggedCmds, spawnedCmds]
  | cons p rest ih =>
    intro fs fs'
    rcases p with ⟨old_n, new_n⟩
    have h1 := ih fs (renameRootEntry fs' old_n new_n)
    simp [flattenRenames, run_command_dry, run_command_real_ok beh hsucc,
      loggedCmds_append, loggedCmds_cons_log, loggedCmds_cons_spawn,
      loggedCmds_nil, spawnedCmds_append, spawnedCmds_cons_log,
      spawnedCmds_cons_spawn, spawnedCmds_nil,
      h1.1, h1.2.1, h1.2.2]

theorem change_root_dry_real (beh : Cmd → ProcBehavior)
    (hsucc : ∀ c, beh c = ProcBehavior.exits 0) (targetDirStr : String)
    (fs : CloneFs) :
    loggedCmds (_change_root_directory true beh targetDirStr fs).events
      = spawnedCmds (_change_root_directory false beh targetDirStr fs).events := by
  have hm := flattenMoves_dry_real beh hsucc targetDirStr (fs.root.map Entry.name)
    fs.target fs fs
  have hr := flattenRenames_dry_real beh hsucc
    (flattenMoves true beh targetDirStr (fs.root.map Entry.name) fs.target fs).skips
    (flattenDeletes (fs.root.map Entry.name)
      (flattenMoves true beh targetDirStr (fs.root.map Entry.name) fs.target fs).fs).1
    (flattenDeletes (fs.root.map Entry.name)
      (flattenMoves false beh targetDirStr (fs.root.map Entry.name) fs.target fs).fs).1
  simp only [_change_root_directory, hm.2.2.1, hm.2.2.2]
  rw [loggedCmds_append, loggedCmds_append, spawnedCmds_append, spawnedCmds_append]
  rw [hm.1, (flattenDeletes_no_cmds _ _).1, (flattenDeletes_no_cmds _ _).2]
  rw [← hm.2.1]
  rw [hr.1]

/-- C4 (amended): every `_run_command` invocation logs exactly the command
line it would execute — dry and real modes log the same line — and the Root
Flattening step run in dry-run logs exactly the command sequence a real run
started from the same state (with succeeding commands) executes.  The
full-pipeline sequences, however, can differ, per the counterexample: the
Rename Step consults filesystem state that only a real run produces. -/
theorem c4_dry_run_logs_match_per_step (beh : Cmd → ProcBehavior)
    (hsucc : ∀ c, beh c = ProcBehavior.exits 0) :
    (∀ c : Cmd, loggedCmds (_run_command true beh c).1 = [c]
      ∧ loggedCmds (_run_command false beh c).1 = [c]
      ∧ spawnedCmds (_run_command false beh c).1 = [c])
    ∧ ∀ (targetDirStr : String) (fs : CloneFs),
        loggedCmds (_change_root_directory true beh targetDirStr fs).events
          = spawnedCmds (_change_root_directory false beh targetDirStr fs).events := by
  constructor
  · intro c
    rw [run_command_dry, run_command_real_ok beh hsucc]
    exact ⟨rfl, rfl, rfl⟩
  · exact change_root_dry_real beh hsucc

/-- Witness for `c4_dry_run_logs_match_per_step` on the collision scenario. -/
theorem c4_dry_run_logs_match_per_step_witness :
    loggedCmds (_change_root_directory true behOk "sub"
        (flattenScenarioFs "sub" 0 1 2 3 4)).events
      = spawnedCmds (_change_root_directory false behOk "sub"
          (flattenScenarioFs "sub" 0 1 2 3 4)).events :=
  (c4_dry_run_logs_match_per_step behOk (fun _ => rfl)).2 "sub"
    (flattenScenarioFs "sub" 0 1 2 3 4)

theorem mutatesTree_of_shape (c : Cmd) (h : cmdMovesTree c = false) (e : Event)
    (hs : e = Event.logCmd c ∨ e = Event.spawn c) : mutatesTree e = false := by
  rcases hs with rfl | rfl
  · rfl
  · simp [mutatesTree, h]

theorem check_tools_events_no_mutate (dry_run : Bool) (beh : Cmd → ProcBehavior) :
    (_check_tools dry_run beh).events.filter mutatesTree = [] := by
  have hev : ∀ e ∈ (runCommandsSeq dry_run beh checkToolCommands).1,
      mutatesTree e = false := by
    intro e he
    rcases runCommandsSeq_events_shape dry_run beh checkToolCommands e he
      with ⟨c, hc, hs⟩
    simp [checkToolCommands] at hc
    rcases hc with h | h | h <;> subst h <;>
      exact mutatesTree_of_shape _ (by rfl) e hs
  rcases hr : runCommandsSeq dry_run beh checkToolCommands with ⟨ev, r⟩
  have hev2 : ∀ e ∈ ev, mutatesTree e = false := by
    intro e he
    exact hev e (by rw [hr]; exact he)
  cases r with
  | ok u =>
    cases u
    simp only [_check_tools, hr]
    exact List.filter_eq_nil_iff.mpr (fun e he => by simp [hev2 e he])
  | error err =>
    cases err with
    | scriptError code =>
      simp only [_check_tools, hr]
      exact List.filter_eq_nil_iff.mpr (fun e he => by simp [hev2 e he])
    | timeoutExpired =>
      simp only [_check_tools, hr]
      exact List.filter_eq_nil_iff.mpr (fun e he => by simp [hev2 e he])

theorem filter_history_events_no_mutate (dry_run : Bool) (beh : Cmd → ProcBehavior)
    (src t dir : String) (ffs fs : CloneFs) :
    (_filter_history dry_run beh src t dir ffs fs).events.filter mutatesTree = [] := by
  have h1 : ∀ e ∈ (_run_command dry_run beh (ghCloneCmd src dir)).1,
      mutatesTree e = false := fun e he =>
    mutatesTree_of_shape _ (by rfl) e (run_command_events_shape dry_run beh _ e he)
  have h2 : ∀ e ∈ (_run_command dry_run beh (filterRepoCmd t)).1,
      mutatesTree e = false := fun e he =>
    mutatesTree_of_shape _ (by rfl) e (run_command_events_shape dry_run beh _ e he)
  rcases hr1 : (_run_command dry_run beh (ghCloneCmd src dir)).2 with e1 | u1
  · simp only [_filter_history, hr1]
    exact List.filter_eq_nil_iff.mpr (fun e he => by simp [h1 e he])
  · rcases hr2 : (_run_command dry_run beh (filterRepoCmd t)).2 with e2 | u2
    · simp only [_filter_history, hr1, hr2]
      refine List.filter_eq_nil_iff.mpr (fun e he => ?_)
      rcases List.mem_append.mp he with h | h
      · simp [h1 e h]
      · simp [h2 e h]
    · simp only [_filter_history, hr1, hr2]
      refine List.filter_eq_nil_iff.mpr (fun e he => ?_)
      rcases List.mem_append.mp he with h | h
      · simp [h1 e h]
      · simp [h2 e h]

theorem filter_history_fails (beh : Cmd → ProcBehavior) (src t dir : String)
    (ffs fs : CloneFs) (n : Int)
    (hfail : beh (filterRepoCmd t) = ProcBehavior.exits n) (hn : n ≠ 0) :
    (_filter_history false beh src t dir ffs fs).err ≠ none := by
  rcases hr1 : (_run_command false beh (ghCloneCmd src dir)).2 with e1 | u1
  · simp only [_filter_history, hr1]
    simp
  · have hr2 : (_run_command false beh (filterRepoCmd t)).2
        = Except.error (RunErr.scriptError n) := by
      simp [_run_command, hfail, hn]
    simp only [_filter_history, hr1, hr2]
    simp

/-- C8: if the history-rewrite (`git filter-repo`) command exits non-zero in a
real run, the pipeline aborts with an error before Root Flattening runs: the
run's whole event trace contains no working-tree mutation — no executed
`git mv` and no recursive delete.  (Earlier aborts — a failed tool check or a
failed clone — yield the same conclusion, so every later step is prevented.) -/
theorem c8_filter_failure_aborts (cfg : RunConfig) (beh : Cmd → ProcBehavior)
    (fs0 filteredFs : CloneFs) (n : Int) (hdry : cfg.dry_run = false)
    (hfail : beh (filterRepoCmd cfg.target_dir) = ProcBehavior.exits n)
    (hn : n ≠ 0) :
    (_main cfg beh fs0 filteredFs).err ≠ none
    ∧ (_main cfg beh fs0 filteredFs).events.filter mutatesTree = [] := by
  rcases hc : (_check_tools false beh).result with er | b
  · constructor
    · simp only [_main, hdry, hc]
      simp
    · simp only [_main, hdry, hc]
      exact check_tools_events_no_mutate false beh
  · cases b with
    | false =>
      constructor
      · simp only [_main, hdry, hc]
        simp
      · simp only [_main, hdry, hc]
        exact check_tools_events_no_mutate false beh
    | true =>
      have hs1 := filter_history_fails beh cfg.src_repository cfg.target_dir
        (repositoryDir cfg.src_repository) filteredFs fs0 n hfail hn
      rcases he1 : (_filter_history false beh cfg.src_repository cfg.target_dir
          (repositoryDir cfg.src_repository) filteredFs fs0).err with _ | es
      · exact absurd he1 hs1
      · constructor
        · simp only [_main, hdry, hc, he1]
          simp
        · simp only [_main, hdry, hc, he1]
          rw [List.filter_append]
          rw [check_tools_events_no_mutate false beh,
            filter_history_events_no_mutate false beh cfg.src_repository
              cfg.target_dir (repositoryDir cfg.src_repository) filteredFs fs0]
          rfl

/-- Witness for `c8_filter_failure_aborts`: a concrete run whose
`git filter-repo --path sub` invocation exits with status 1. -/
theorem c8_filter_failure_aborts_witness :
    filterFailConfig.dry_run = false
    ∧ behFilterFails (filterRepoCmd filterFailConfig.target_dir)
        = ProcBehavior.exits 1
    ∧ ((_main filterFailConfig behFilterFails staleCloneFs staleCloneFs).err ≠ none
      ∧ (_main filterFailConfig behFilterFails staleCloneFs
          staleCloneFs).events.filter mutatesTree = []) :=
  ⟨rfl, by decide,
    c8_filter_failure_aborts filterFailConfig behFilterFails staleCloneFs
      staleCloneFs 1 rfl (by decide) (by decide)⟩
